import Mathlib

/-!
Verification of the copilot-api relay core: model-alias normalization
(`src/lib/model-normalization.ts`), the credential-refresh coordinator and
upstream request construction (`src/services/copilot/create-chat-completions`),
the model-listing expansion (`src/routes/models/route.ts`), and the stream
accumulator (`src/routes/chat-completions/handler.ts`), shallowly embedded in
Lean 4.
-/

namespace CopilotApi

/-! ## Alias registry (src/lib/model-normalization.ts) -/

/-- The fixed alias table `modelAliases`: alias ↦ canonical. -/
def modelAliases : List (String × String) :=
  [("claude-opus-4-6[1M]", "claude-opus-4.6-1m"),
   ("claude-opus-4-6", "claude-opus-4.6-1m"),
   ("claude-sonnet-4-6", "claude-sonnet-4.6"),
   ("claude-haiku-4-5", "claude-haiku-4.5")]

/-- One step of building `reverseModelAliases`: `aliases.push(alias)` under the
canonical key, inserting the key at the end if absent (JS `Map` keeps insertion
order). -/
def insertAlias (m : List (String × List String)) (a canonical : String) :
    List (String × List String) :=
  match m.lookup canonical with
  | none => m ++ [(canonical, [a])]
  | some _ => m.map (fun q => if q.1 = canonical then (q.1, q.2 ++ [a]) else q)

/-- `reverseModelAliases`: canonical ↦ list of aliases, in table order. -/
def reverseModelAliases : List (String × List String) :=
  modelAliases.foldl (fun m p => insertAlias m p.1 p.2) []

/-- `normalizeModelName`: `modelAliases[modelId] ?? modelId`. -/
def normalizeModelName (modelId : String) : String :=
  match modelAliases.lookup modelId with
  | some canonical => canonical
  | none => modelId

/-- `getModelAliases`: `reverseModelAliases.get(modelId) ?? []`. -/
def getModelAliases (modelId : String) : List String :=
  (reverseModelAliases.lookup modelId).getD []

/-- Inner-loop body of `expandModelIdsWithAliases`: state is
(seenModelIds, expandedModelIds); a variant already seen is skipped, otherwise
it is recorded and pushed. -/
def expandStep (st : List String × List String) (variant : String) :
    List String × List String :=
  if variant ∈ st.1 then st else (st.1 ++ [variant], st.2 ++ [variant])

/-- Outer-loop body of `expandModelIdsWithAliases`: run the inner loop over
`[modelId, ...getModelAliases(modelId)]`. -/
def expandModelStep (st : List String × List String) (modelId : String) :
    List String × List String :=
  (modelId :: getModelAliases modelId).foldl expandStep st

/-- `expandModelIdsWithAliases`: double loop over the input ids and, for each,
over `[modelId, ...getModelAliases(modelId)]`, deduplicating via the seen set. -/
def expandModelIdsWithAliases (modelIds : List String) : List String :=
  (modelIds.foldl expandModelStep ([], [])).2

/-- The block a single id contributes when nothing is deduplicated away: the
id itself immediately followed by its registered aliases. -/
def expansionOf (modelId : String) : List String :=
  modelId :: getModelAliases modelId

/-! ## Credential-refresh coordinator (createChatCompletionsStream) -/

/-- An upstream HTTP response: status code and opaque body. -/
structure UpstreamResponse where
  status : Nat
  body : String
deriving DecidableEq, Repr

/-- JS `Response.ok`: status in the 200–299 range. -/
def responseOk (r : UpstreamResponse) : Bool :=
  200 ≤ r.status && r.status ≤ 299

instance exceptDecEq {ε α : Type} [DecidableEq ε] [DecidableEq α] :
    DecidableEq (Except ε α) := fun a b =>
  match a, b with
  | Except.ok x, Except.ok y =>
    if h : x = y then isTrue (by simp [h]) else isFalse (by simp [h])
  | Except.error x, Except.error y =>
    if h : x = y then isTrue (by simp [h]) else isFalse (by simp [h])
  | Except.ok _, Except.error _ => isFalse (by simp)
  | Except.error _, Except.ok _ => isFalse (by simp)

/-- Outcome of `createChatCompletionsStream`: either the event stream of an ok
response, or the thrown `HTTPError` carrying the failing response; plus how
often `refreshCopilotTokenOnError` and `doFetch` ran. -/
structure StreamCallOutcome where
  result : Except UpstreamResponse UpstreamResponse
  refreshCalls : Nat
  fetchCalls : Nat
deriving DecidableEq, Repr

/-- `createChatCompletionsStream`: fetch once (stream forced true); on 401
attempt exactly one token refresh and, only if it succeeded, fetch once more;
then throw `HTTPError` if the final response is not ok. `doFetchAttempt n` is
the response of the n-th `doFetch` call; `refreshSucceeds` is the boolean
result of `refreshCopilotTokenOnError` (which swallows its own failures). -/
def createChatCompletionsStream (doFetchAttempt : Nat → UpstreamResponse)
    (refreshSucceeds : Bool) : StreamCallOutcome :=
  let response := doFetchAttempt 0
  let retried : UpstreamResponse × Nat × Nat :=
    if response.status = 401 then
      if refreshSucceeds then (doFetchAttempt 1, 1, 2) else (response, 1, 1)
    else (response, 0, 1)
  if responseOk retried.1 then
    ⟨Except.ok retried.1, retried.2.1, retried.2.2⟩
  else
    ⟨Except.error retried.1, retried.2.1, retried.2.2⟩

/-! ## Chat-completions payload and outbound request (doFetch) -/

/-- One part of a mixed-content message. -/
inductive ContentPart
  | text (s : String)
  | imageUrl (url : String)
deriving DecidableEq, Repr

/-- `Message.content`: a plain string, an array of parts, or `null`. -/
inductive MessageContent
  | str (s : String)
  | parts (ps : List ContentPart)
  | null
deriving DecidableEq, Repr

/-- A chat message (fields the relay inspects). -/
structure Message where
  role : String
  content : MessageContent
deriving DecidableEq, Repr

/-- The chat-completions payload fields the relay reads or rewrites; `stream`
is `Option Bool` (`none` = absent or `null`). -/
structure ChatCompletionsPayload where
  messages : List Message
  model : String
  max_tokens : Option Nat := none
  stream : Option Bool := none
deriving DecidableEq, Repr

/-- `doFetch`'s vision probe: some message content is an array containing an
`image_url` part. -/
def enableVision (p : ChatCompletionsPayload) : Bool :=
  p.messages.any fun m =>
    match m.content with
    | MessageContent.parts ps =>
      ps.any fun part =>
        match part with
        | ContentPart.imageUrl _ => true
        | _ => false
    | _ => false

/-- `doFetch`'s initiator probe: some message has role assistant or tool. -/
def isAgentCall (p : ChatCompletionsPayload) : Bool :=
  p.messages.any fun msg => msg.role == "assistant" || msg.role == "tool"

/-- What `doFetch` puts on the wire: the JSON body plus the request-shaping
facts derived from the payload (vision header flag, X-Initiator header). -/
structure OutboundRequest where
  body : ChatCompletionsPayload
  xInitiator : String
  visionEnabled : Bool
deriving DecidableEq, Repr

/-- `doFetch`: normalize the model via the alias table, derive the headers,
and set `stream` from `streamOverride` when one is given (otherwise the
payload's own value is kept). -/
def doFetchRequest (payload : ChatCompletionsPayload)
    (streamOverride : Option Bool) : OutboundRequest :=
  let normalizedPayload : ChatCompletionsPayload :=
    { payload with model := normalizeModelName payload.model }
  let body :=
    match streamOverride with
    | some s => { normalizedPayload with stream := some s }
    | none => normalizedPayload
  { body := body
    xInitiator := if isAgentCall normalizedPayload then "agent" else "user"
    visionEnabled := enableVision normalizedPayload }

/-- The outbound request built by `createChatCompletionsStream`, which always
calls `doFetch(payload, true)`. -/
def createChatCompletionsStreamRequest (payload : ChatCompletionsPayload) :
    OutboundRequest :=
  doFetchRequest payload (some true)

/-! ## Streaming chunk data model (create-chat-completions types) -/

/-- Token usage summary. -/
structure Usage where
  prompt_tokens : Nat
  completion_tokens : Nat
  total_tokens : Nat
deriving DecidableEq, Repr

/-- The four finish reasons. -/
inductive FinishReason
  | stop
  | length
  | toolCalls
  | contentFilter
deriving DecidableEq, Repr

/-- A tool-call fragment's `function` field. -/
structure FunctionDelta where
  name : Option String := none
  arguments : Option String := none
deriving DecidableEq, Repr

/-- One tool-call fragment of a delta, keyed by `index`. -/
structure ToolCallDelta where
  index : Nat
  id : Option String := none
  function : Option FunctionDelta := none
deriving DecidableEq, Repr

/-- A merged tool call's `function` field. -/
structure FunctionCall where
  name : String
  arguments : String
deriving DecidableEq, Repr

/-- A merged tool call (`ToolCallAccumulator` in the source; the constant
`type: "function"` field is omitted). -/
structure ToolCallAccumulator where
  id : String
  function : FunctionCall
deriving DecidableEq, Repr

/-- A streaming choice's delta. -/
structure Delta where
  content : Option String := none
  tool_calls : Option (List ToolCallDelta) := none
deriving DecidableEq, Repr

/-- A streaming choice. -/
structure Choice where
  delta : Delta := {}
  finish_reason : Option FinishReason := none
deriving DecidableEq, Repr

/-- The JSON shape `JSON.parse` yields for one chunk. The TS cast
`as ChatCompletionChunk` is unchecked, so every field — `choices` included —
may be absent. -/
structure ParsedChunk where
  id : Option String := none
  model : Option String := none
  created : Option Nat := none
  system_fingerprint : Option String := none
  usage : Option Usage := none
  choices : Option (List Choice) := none
deriving DecidableEq, Repr

/-- The data string of a server-sent event, as the accumulator sees it: the
literal end-of-stream sentinel, a string `JSON.parse` rejects, or a string
that parses to a chunk object. -/
inductive ChunkData
  | done
  | malformed (raw : String)
  | chunk (parsed : ParsedChunk)
deriving DecidableEq, Repr

/-- One server-sent event; `data := none` models an absent or empty data
field (both falsy in the source's `if (!chunk.data) continue`). -/
structure SSEMessage where
  data : Option ChunkData := none
deriving DecidableEq, Repr

/-! ## Stream accumulator (handler.ts) -/

/-- JS truthiness of an optional string: present and non-empty. -/
def strTruthy : Option String → Bool
  | none => false
  | some s => s != ""

/-- JS truthiness of an optional number: present and non-zero. -/
def natTruthy : Option Nat → Bool
  | none => false
  | some n => n != 0

/-- JS falsiness of an optional string field (absent or empty). -/
def optStrFalsy : Option String → Bool
  | none => true
  | some s => s == ""

/-- `if (!cur && incoming) cur = incoming` for string fields. -/
def latchString (cur : String) (incoming : Option String) : String :=
  if cur == "" && strTruthy incoming then incoming.getD "" else cur

/-- `if (!cur && incoming) cur = incoming` for the numeric `created` field. -/
def latchCreated (cur : Nat) (incoming : Option Nat) : Nat :=
  if cur == 0 && natTruthy incoming then incoming.getD 0 else cur

/-- `if (!cur && incoming) cur = incoming` for the optional fingerprint. -/
def latchFingerprint (cur incoming : Option String) : Option String :=
  if optStrFalsy cur && strTruthy incoming then incoming else cur

/-- `StreamAccumulator`: `toolCalls` models the JS `Map<number, ...>` as an
association list in key-insertion order (how `Map` iterates). -/
structure StreamAccumulator where
  id : String
  model : String
  created : Nat
  systemFingerprint : Option String
  finishReason : FinishReason
  content : String
  toolCalls : List (Nat × ToolCallAccumulator)
  usage : Option Usage
deriving DecidableEq, Repr

/-- `createAccumulator`. -/
def createAccumulator : StreamAccumulator :=
  { id := "", model := "", created := 0, systemFingerprint := none,
    finishReason := FinishReason.stop, content := "", toolCalls := [],
    usage := none }

/-- `delta.function?.name` (optional chaining). -/
def deltaName (d : ToolCallDelta) : Option String :=
  d.function.bind FunctionDelta.name

/-- `delta.function?.arguments` (optional chaining). -/
def deltaArguments (d : ToolCallDelta) : Option String :=
  d.function.bind FunctionDelta.arguments

/-- `toolCalls.get(index)` on the insertion-ordered association list. -/
def lookupToolCall (m : List (Nat × ToolCallAccumulator)) (i : Nat) :
    Option ToolCallAccumulator :=
  m.lookup i

/-- The update applied to an existing entry: fill a still-empty id or name,
and append non-empty arguments. -/
def fillToolCall (existing : ToolCallAccumulator) (d : ToolCallDelta) :
    ToolCallAccumulator :=
  let e1 :=
    if existing.id == "" && strTruthy d.id then
      { existing with id := d.id.getD "" }
    else existing
  let e2 :=
    if e1.function.name == "" && strTruthy (deltaName d) then
      { e1 with function := { e1.function with name := (deltaName d).getD "" } }
    else e1
  if strTruthy (deltaArguments d) then
    { e2 with function :=
        { e2.function with
          arguments := e2.function.arguments ++ (deltaArguments d).getD "" } }
  else e2

/-- One delta of `mergeToolCalls`'s loop: create the entry on first sighting
(appending the key, as `Map.set` of a fresh key does), otherwise update it in
place. -/
def mergeOneToolCall (m : List (Nat × ToolCallAccumulator))
    (d : ToolCallDelta) : List (Nat × ToolCallAccumulator) :=
  match lookupToolCall m d.index with
  | none =>
    m ++ [(d.index,
      { id := d.id.getD ""
        function :=
          { name := (deltaName d).getD ""
            arguments := (deltaArguments d).getD "" } })]
  | some _ =>
    m.map fun p => if p.1 = d.index then (p.1, fillToolCall p.2 d) else p

/-- `mergeToolCalls`: fold the fragments into the map. -/
def mergeToolCalls (m : List (Nat × ToolCallAccumulator))
    (deltas : List ToolCallDelta) : List (Nat × ToolCallAccumulator) :=
  deltas.foldl mergeOneToolCall m

/-- `applyChunkToAccumulator`: latch header fields, overwrite usage, then read
`parsed.choices.at(0)` — which throws a TypeError (modelled as
`Except.error`) when the parsed JSON has no `choices` array — and fold the
first choice's finish reason, text delta and tool-call fragments. -/
def applyChunkToAccumulator (parsed : ParsedChunk)
    (accumulator : StreamAccumulator) : Except Unit StreamAccumulator :=
  let latched : StreamAccumulator :=
    { accumulator with
      id := latchString accumulator.id parsed.id
      model := latchString accumulator.model parsed.model
      created := latchCreated accumulator.created parsed.created
      systemFingerprint :=
        latchFingerprint accumulator.systemFingerprint parsed.system_fingerprint
      usage := if parsed.usage.isSome then parsed.usage else accumulator.usage }
  match parsed.choices with
  | none => Except.error ()
  | some choices =>
    match choices.head? with
    | none => Except.ok latched
    | some choice =>
      let withFinish :=
        match choice.finish_reason with
        | some fr => { latched with finishReason := fr }
        | none => latched
      let withContent :=
        match choice.delta.content with
        | some s => { withFinish with content := withFinish.content ++ s }
        | none => withFinish
      let withTools :=
        match choice.delta.tool_calls with
        | some ds =>
          { withContent with
            toolCalls := mergeToolCalls withContent.toolCalls ds }
        | none => withContent
      Except.ok withTools

/-- `parseChunkDataOrLog`: `JSON.parse`, logging and returning null on
failure (the `[DONE]` sentinel never reaches it on the code path, and would
fail to parse anyway). -/
def parseChunkDataOrLog : ChunkData → Option ParsedChunk
  | ChunkData.done => none
  | ChunkData.malformed _ => none
  | ChunkData.chunk parsed => some parsed

/-- The `for await` loop of `collectStreamToResponse`: skip events without
data, stop at `[DONE]`, skip events that fail to parse, and apply the rest;
a throw inside `applyChunkToAccumulator` aborts the whole collection. -/
def collectEvents : List SSEMessage → StreamAccumulator →
    Except Unit StreamAccumulator
  | [], accumulator => Except.ok accumulator
  | msg :: rest, accumulator =>
    match msg.data with
    | none => collectEvents rest accumulator
    | some ChunkData.done => Except.ok accumulator
    | some d =>
      match parseChunkDataOrLog d with
      | none => collectEvents rest accumulator
      | some parsed =>
        match applyChunkToAccumulator parsed accumulator with
        | Except.error e => Except.error e
        | Except.ok acc2 => collectEvents rest acc2

/-- The single choice's message of the final response. -/
structure ResponseMessage where
  content : Option String
  tool_calls : Option (List ToolCallAccumulator) := none
deriving DecidableEq, Repr

/-- The non-streaming response built by `buildResponse`; the single choice's
message and finish reason are inlined (the source always emits exactly one
choice at index 0 with null logprobs). -/
structure ChatCompletionResponse where
  id : String
  created : Nat
  model : String
  message : ResponseMessage
  finish_reason : FinishReason
  system_fingerprint : Option String := none
  usage : Option Usage := none
deriving DecidableEq, Repr

/-- `buildResponse`: content is the accumulated text or null if empty; tool
calls are the map's values in iteration order, included only when the map is
non-empty; fingerprint and usage only when truthy. -/
def buildResponse (accumulator : StreamAccumulator) : ChatCompletionResponse :=
  { id := accumulator.id
    created := accumulator.created
    model := accumulator.model
    message :=
      { content :=
          if accumulator.content == "" then none else some accumulator.content
        tool_calls :=
          if accumulator.toolCalls.length > 0 then
            some (accumulator.toolCalls.map Prod.snd)
          else none }
    finish_reason := accumulator.finishReason
    system_fingerprint :=
      if optStrFalsy accumulator.systemFingerprint then none
      else accumulator.systemFingerprint
    usage := accumulator.usage }

/-- `collectStreamToResponse`: fold the whole event list from the fresh
accumulator and build the response. -/
def collectStreamToResponse (stream : List SSEMessage) :
    Except Unit ChatCompletionResponse :=
  (collectEvents stream createAccumulator).map buildResponse

/-- The fragment indices carried by one parsed chunk's first choice, in
fragment order. -/
def chunkFragmentIndices (parsed : ParsedChunk) : List Nat :=
  match parsed.choices with
  | some (choice :: _) =>
    match choice.delta.tool_calls with
    | some ds => ds.map ToolCallDelta.index
    | none => []
  | _ => []

/-- All fragment indices an event sequence presents to the accumulator, in
arrival order, honoring the same skip/stop rules as the collection loop. -/
def fragmentIndices : List SSEMessage → List Nat
  | [] => []
  | msg :: rest =>
    match msg.data with
    | none => fragmentIndices rest
    | some ChunkData.done => []
    | some d =>
      match parseChunkDataOrLog d with
      | none => fragmentIndices rest
      | some parsed => chunkFragmentIndices parsed ++ fragmentIndices rest

/-- Record one index, keeping only its first occurrence. -/
def insertIndex (ks : List Nat) (i : Nat) : List Nat :=
  if i ∈ ks then ks else ks ++ [i]

/-- First-occurrence order of a stream of indices, appended after `ks`. -/
def firstSeenIndices (ks : List Nat) (indices : List Nat) : List Nat :=
  indices.foldl insertIndex ks

/-- An event whose parsed chunk is `ck` except that its choices are one choice
carrying the text delta `s` (no tool-call fragments) with finish reason `fr`,
followed by the untouched choices `rest`. Used to compare a single text delta
against the same event split in two. -/
def mkTextEvent (ck : ParsedChunk) (fr : Option FinishReason)
    (rest : List Choice) (s : String) : SSEMessage :=
  let textChoice : Choice :=
    { delta := { content := some s, tool_calls := none }, finish_reason := fr }
  ⟨some (ChunkData.chunk { ck with choices := some (textChoice :: rest) })⟩

/-! ## Model-listing route (src/routes/models/route.ts) -/

/-- An entry of the upstream model catalog (fields the route reads). -/
structure CatalogModel where
  id : String
  vendor : String
  name : String
deriving DecidableEq, Repr

/-- A row of the client-facing model listing. -/
structure ModelListingRow where
  id : String
  owned_by : String
  display_name : String
deriving DecidableEq, Repr

/-- The listing route body: expand the catalog ids with aliases, then resolve
each expanded id back to its source entry via `normalizeModelName` (the JS
`Map` built from the catalog keeps the last entry for a duplicated id). -/
def listModels (catalog : List CatalogModel) : List ModelListingRow :=
  let modelIds := expandModelIdsWithAliases (catalog.map CatalogModel.id)
  modelIds.foldr
    (fun modelId rows =>
      match (catalog.filter
          (fun m => m.id == normalizeModelName modelId)).getLast? with
      | none => rows
      | some src => ⟨modelId, src.vendor, src.name⟩ :: rows)
    []

/-! ## Theorems -/

/-- C6: for every client chat-completion request, whatever the client's
`stream` flag was (true, false, or absent), the body that
`createChatCompletionsStream` sends to the upstream chat-completions endpoint
has `stream` set to `true`. -/
theorem stream_always_forced_true (payload : ChatCompletionsPayload) :
    (createChatCompletionsStreamRequest payload).body.stream = some true := rfl

/-- C7: the outbound payload's `model` is always the alias-table
normalization of the client's model; in particular a request for
"claude-opus-4-6" goes upstream as "claude-opus-4.6-1m". -/
theorem model_rewritten_before_upstream (payload : ChatCompletionsPayload)
    (streamOverride : Option Bool) :
    (doFetchRequest payload streamOverride).body.model
        = normalizeModelName payload.model ∧
      (createChatCompletionsStreamRequest
        { messages := [], model := "claude-opus-4-6" }).body.model
        = "claude-opus-4.6-1m" := by
  constructor
  · cases streamOverride <;> rfl
  · rfl

/-- C1: when the first upstream attempt returns 401, the coordinator invokes
the credential refresh exactly once; if the refresh succeeds it re-executes
the call exactly once more and the outcome is that second result (a second
401 is surfaced as its error, with no further refresh); if the refresh fails,
the call is not re-executed and the original 401 is propagated as the error. -/
theorem refresh_retry_once_semantics (doFetchAttempt : Nat → UpstreamResponse)
    (refreshSucceeds : Bool) (h401 : (doFetchAttempt 0).status = 401) :
    (createChatCompletionsStream doFetchAttempt refreshSucceeds).refreshCalls
        = 1 ∧
      (refreshSucceeds = true →
        (createChatCompletionsStream doFetchAttempt refreshSucceeds).fetchCalls
            = 2 ∧
          ((doFetchAttempt 1).status = 401 →
            (createChatCompletionsStream doFetchAttempt refreshSucceeds).result
              = Except.error (doFetchAttempt 1)) ∧
          (responseOk (doFetchAttempt 1) = true →
            (createChatCompletionsStream doFetchAttempt refreshSucceeds).result
              = Except.ok (doFetchAttempt 1))) ∧
      (refreshSucceeds = false →
        (createChatCompletionsStream doFetchAttempt refreshSucceeds).fetchCalls
            = 1 ∧
          (createChatCompletionsStream doFetchAttempt refreshSucceeds).result
            = Except.error (doFetchAttempt 0)) := by
  have hnotOk0 : responseOk (doFetchAttempt 0) = false := by
    simp [responseOk, h401]
  cases refreshSucceeds with
  | false =>
    refine ⟨?_, ?_, ?_⟩ <;>
      simp [createChatCompletionsStream, h401, hnotOk0]
  | true =>
    refine ⟨?_, ?_, ?_⟩
    · simp only [createChatCompletionsStream, h401, if_true, if_pos]
      split <;> rfl
    · intro _
      refine ⟨?_, ?_, ?_⟩
      · simp only [createChatCompletionsStream, h401, if_true, if_pos]
        split <;> rfl
      · intro h401b
        have hnotOk1 : responseOk (doFetchAttempt 1) = false := by
          simp [responseOk, h401b]
        simp [createChatCompletionsStream, h401, hnotOk1]
      · intro hok1
        simp [createChatCompletionsStream, h401, hok1]
    · intro h
      exact absurd h (by simp)

/-- Witness for C1 at a concrete operation: first attempt 401, refresh
succeeds, second attempt 200. -/
theorem refresh_retry_once_semantics_witness :
    (((fun n => if n = 0 then ⟨401, "expired"⟩ else ⟨200, "fresh"⟩ :
        Nat → UpstreamResponse) 0).status = 401) ∧
      ((createChatCompletionsStream
          (fun n => if n = 0 then ⟨401, "expired"⟩ else ⟨200, "fresh"⟩)
          true).refreshCalls = 1 ∧
        (true = true →
          (createChatCompletionsStream
              (fun n => if n = 0 then ⟨401, "expired"⟩ else ⟨200, "fresh"⟩)
              true).fetchCalls = 2 ∧
            (((fun n => if n = 0 then ⟨401, "expired"⟩ else ⟨200, "fresh"⟩ :
                Nat → UpstreamResponse) 1).status = 401 →
              (createChatCompletionsStream
                  (fun n => if n = 0 then ⟨401, "expired"⟩ else ⟨200, "fresh"⟩)
                  true).result
                = Except.error ((fun n =>
                    if n = 0 then ⟨401, "expired"⟩ else ⟨200, "fresh"⟩ :
                      Nat → UpstreamResponse) 1)) ∧
            (responseOk ((fun n =>
                if n = 0 then ⟨401, "expired"⟩ else ⟨200, "fresh"⟩ :
                  Nat → UpstreamResponse) 1) = true →
              (createChatCompletionsStream
                  (fun n => if n = 0 then ⟨401, "expired"⟩ else ⟨200, "fresh"⟩)
                  true).result
                = Except.ok ((fun n =>
                    if n = 0 then ⟨401, "expired"⟩ else ⟨200, "fresh"⟩ :
                      Nat → UpstreamResponse) 1))) ∧
        (true = false →
          (createChatCompletionsStream
              (fun n => if n = 0 then ⟨401, "expired"⟩ else ⟨200, "fresh"⟩)
              true).fetchCalls = 1 ∧
            (createChatCompletionsStream
                (fun n => if n = 0 then ⟨401, "expired"⟩ else ⟨200, "fresh"⟩)
                true).result
              = Except.error ((fun n =>
                  if n = 0 then ⟨401, "expired"⟩ else ⟨200, "fresh"⟩ :
                    Nat → UpstreamResponse) 0))) :=
  ⟨by decide,
   refresh_retry_once_semantics
     (fun n => if n = 0 then ⟨401, "expired"⟩ else ⟨200, "fresh"⟩) true
     (by decide)⟩

/-- C10: the fold step is total only for chunks whose parsed JSON carries a
`choices` array. A chunk parsing to `\x7b\x7d` (all fields absent) makes
`applyChunkToAccumulator` throw, which aborts the whole collection even when
well-formed chunks surround it, while a chunk that is not valid JSON at all
is skipped and the rest of the stream still folds. -/
theorem wrong_shape_chunk_aborts_collection :
    applyChunkToAccumulator {} createAccumulator = Except.error () ∧
      collectStreamToResponse
        [⟨some (ChunkData.chunk
          { choices := some [{ delta := { content := some "well-formed" } }] })⟩,
         ⟨some (ChunkData.chunk {})⟩,
         ⟨some (ChunkData.chunk
          { choices := some [{ delta := { content := some "lost" } }] })⟩]
        = Except.error () ∧
      collectStreamToResponse
        [⟨some (ChunkData.malformed "not json")⟩,
         ⟨some (ChunkData.chunk
          { choices := some [{ delta := { content := some "kept" } }] })⟩]
        = Except.ok
            { id := "", created := 0, model := "",
              message := { content := some "kept", tool_calls := none },
              finish_reason := FinishReason.stop,
              system_fingerprint := none, usage := none } := by
  refine ⟨rfl, rfl, ?_⟩
  decide

/-- Replacing the tail of an event list by one that folds identically from
every accumulator state leaves the whole collection unchanged. -/
theorem collectEvents_append_congr (xs ys : List SSEMessage)
    (h : ∀ acc, collectEvents xs acc = collectEvents ys acc)
    (pre : List SSEMessage) :
    ∀ acc : StreamAccumulator,
      collectEvents (pre ++ xs) acc = collectEvents (pre ++ ys) acc := by
  induction pre with
  | nil => exact h
  | cons m rest ih =>
    intro acc
    cases hm : m.data with
    | none =>
      simp only [List.cons_append, collectEvents, hm]
      exact ih acc
    | some d =>
      cases d with
      | done => simp only [List.cons_append, collectEvents, hm]
      | malformed raw =>
        simp only [List.cons_append, collectEvents, hm, parseChunkDataOrLog]
        exact ih acc
      | chunk parsed =>
        simp only [List.cons_append, collectEvents, hm, parseChunkDataOrLog]
        cases applyChunkToAccumulator parsed acc with
        | error e => rfl
        | ok acc2 => exact ih acc2

/-- C4: an event whose data fails to parse as JSON is skipped: wherever it
sits in the sequence, the final non-streaming response equals the fold of the
sequence with that event removed; the malformed chunk never aborts the
response. -/
theorem malformed_event_removed_same_response (pre post : List SSEMessage)
    (raw : String) :
    collectStreamToResponse
        (pre ++ ⟨some (ChunkData.malformed raw)⟩ :: post)
      = collectStreamToResponse (pre ++ post) := by
  unfold collectStreamToResponse
  rw [collectEvents_append_congr (⟨some (ChunkData.malformed raw)⟩ :: post)
    post (fun acc => rfl) pre]

/-- The header fields of any successful fold step are exactly the latch
functions applied to the previous state and the chunk's fields. -/
theorem applyChunk_header_eq (parsed : ParsedChunk)
    (acc acc' : StreamAccumulator)
    (h : applyChunkToAccumulator parsed acc = Except.ok acc') :
    acc'.id = latchString acc.id parsed.id ∧
      acc'.model = latchString acc.model parsed.model ∧
      acc'.created = latchCreated acc.created parsed.created ∧
      acc'.systemFingerprint
        = latchFingerprint acc.systemFingerprint parsed.system_fingerprint := by
  obtain ⟨pid, pmodel, pcreated, pfp, pusage, pchoices⟩ := parsed
  cases pchoices with
  | none => simp [applyChunkToAccumulator] at h
  | some choices =>
    cases choices with
    | nil =>
      simp only [applyChunkToAccumulator, List.head?, Except.ok.injEq] at h
      subst h
      exact ⟨rfl, rfl, rfl, rfl⟩
    | cons choice cs =>
      obtain ⟨⟨ct, tc⟩, fr⟩ := choice
      cases fr <;> cases ct <;> cases tc <;>
        · simp only [applyChunkToAccumulator, List.head?, Except.ok.injEq] at h
          subst h
          exact ⟨rfl, rfl, rfl, rfl⟩

/-- A non-empty string field is never re-latched. -/
theorem latchString_of_ne (cur : String) (inc : Option String)
    (h : cur ≠ "") : latchString cur inc = cur := by
  simp [latchString, h]

/-- A non-zero `created` is never re-latched. -/
theorem latchCreated_of_ne (cur : Nat) (inc : Option Nat)
    (h : cur ≠ 0) : latchCreated cur inc = cur := by
  simp [latchCreated, h]

/-- A non-empty fingerprint is never re-latched. -/
theorem latchFingerprint_of_ne (s : String) (inc : Option String)
    (h : s ≠ "") : latchFingerprint (some s) inc = some s := by
  simp [latchFingerprint, optStrFalsy, h]

/-- C9: each of id, model, created and system fingerprint latches its first
non-empty value: a fold step never overwrites a non-empty value, and when the
field is still empty the step stores exactly what the latch of the incoming
chunk field yields. -/
theorem header_fields_latch_first_nonempty (parsed : ParsedChunk)
    (acc acc' : StreamAccumulator)
    (h : applyChunkToAccumulator parsed acc = Except.ok acc') :
    (acc.id ≠ "" → acc'.id = acc.id) ∧
      (acc.model ≠ "" → acc'.model = acc.model) ∧
      (acc.created ≠ 0 → acc'.created = acc.created) ∧
      (∀ s, s ≠ "" → acc.systemFingerprint = some s →
        acc'.systemFingerprint = some s) ∧
      (acc.id = "" → acc'.id = latchString "" parsed.id) ∧
      (acc.model = "" → acc'.model = latchString "" parsed.model) ∧
      (acc.created = 0 → acc'.created = latchCreated 0 parsed.created) ∧
      (acc.systemFingerprint = none →
        acc'.systemFingerprint = latchFingerprint none parsed.system_fingerprint) := by
  obtain ⟨h1, h2, h3, h4⟩ := applyChunk_header_eq parsed acc acc' h
  refine ⟨?_, ?_, ?_, ?_, ?_, ?_, ?_, ?_⟩
  · intro hne; rw [h1, latchString_of_ne _ _ hne]
  · intro hne; rw [h2, latchString_of_ne _ _ hne]
  · intro hne; rw [h3, latchCreated_of_ne _ _ hne]
  · intro s hs hfp; rw [h4, hfp, latchFingerprint_of_ne _ _ hs]
  · intro he; rw [h1, he]
  · intro he; rw [h2, he]
  · intro he; rw [h3, he]
  · intro he; rw [h4, he]

/-- Witness for C9 at a concrete chunk and a concrete accumulator with all
four fields already non-empty. -/
theorem header_fields_latch_first_nonempty_witness :
    applyChunkToAccumulator
        { id := some "other-id", model := some "other-model",
          created := some 99, system_fingerprint := some "fp2",
          choices := some [] }
        { id := "keep-id", model := "keep-model", created := 5,
          systemFingerprint := some "fp", finishReason := FinishReason.stop,
          content := "c", toolCalls := [], usage := none }
      = Except.ok
        { id := "keep-id", model := "keep-model", created := 5,
          systemFingerprint := some "fp", finishReason := FinishReason.stop,
          content := "c", toolCalls := [], usage := none } ∧
      (("keep-id" : String) ≠ "" →
        ({ id := "keep-id", model := "keep-model", created := 5,
           systemFingerprint := some "fp", finishReason := FinishReason.stop,
           content := "c", toolCalls := [], usage := none } :
             StreamAccumulator).id = "keep-id") := by
  have h : applyChunkToAccumulator
      { id := some "other-id", model := some "other-model",
        created := some 99, system_fingerprint := some "fp2",
        choices := some [] }
      { id := "keep-id", model := "keep-model", created := 5,
        systemFingerprint := some "fp", finishReason := FinishReason.stop,
        content := "c", toolCalls := [], usage := none }
    = Except.ok
      { id := "keep-id", model := "keep-model", created := 5,
        systemFingerprint := some "fp", finishReason := FinishReason.stop,
        content := "c", toolCalls := [], usage := none } := by decide
  refine ⟨h, ?_⟩
  intro hne
  exact (header_fields_latch_first_nonempty _ _ _ h).1 hne

/-- Updating the entry stored under a present key rewrites exactly that
entry's value. -/
theorem lookup_map_update (m : List (Nat × ToolCallAccumulator)) (i : Nat)
    (f : ToolCallAccumulator → ToolCallAccumulator) (e : ToolCallAccumulator)
    (h : m.lookup i = some e) :
    (m.map fun p => if p.1 = i then (p.1, f p.2) else p).lookup i
      = some (f e) := by
  induction m with
  | nil => simp at h
  | cons p rest ih =>
    obtain ⟨k, v⟩ := p
    by_cases hk : k = i
    · subst hk
      simp only [List.lookup, beq_self_eq_true] at h
      injection h with h
      subst h
      rw [List.map_cons, if_pos rfl]
      simp [List.lookup]
    · have hbeq : (i == k) = false := by
        simp only [beq_eq_false_iff_ne]
        exact fun hc => hk hc.symm
      simp only [List.lookup, hbeq] at h
      simp only [List.map_cons]
      rw [if_neg hk]
      simp only [List.lookup, hbeq]
      exact ih h

/-- The `fillToolCall` update on the id field: a still-empty id is filled
from the fragment, a non-empty one is untouched. -/
theorem fillToolCall_id (e : ToolCallAccumulator) (d : ToolCallDelta) :
    (fillToolCall e d).id = if e.id = "" then d.id.getD "" else e.id := by
  unfold fillToolCall
  simp only [apply_ite ToolCallAccumulator.id, ite_self]
  by_cases he : e.id = ""
  · cases hd : d.id with
    | none => simp [he, hd, strTruthy]
    | some s => by_cases hs : s = "" <;> simp [he, hd, hs, strTruthy]
  · simp [he, strTruthy]

/-- The `fillToolCall` update on the name field. -/
theorem fillToolCall_name (e : ToolCallAccumulator) (d : ToolCallDelta) :
    (fillToolCall e d).function.name
      = if e.function.name = "" then (deltaName d).getD ""
        else e.function.name := by
  unfold fillToolCall
  simp only [apply_ite ToolCallAccumulator.function, apply_ite FunctionCall.name,
    ite_self]
  by_cases he : e.function.name = ""
  · cases hn : deltaName d with
    | none => simp [he, hn, strTruthy]
    | some s => by_cases hs : s = "" <;> simp [he, hn, hs, strTruthy]
  · simp [he, strTruthy]

/-- The `fillToolCall` update on the arguments field: the fragment's
arguments string (empty when absent) is appended. -/
theorem fillToolCall_arguments (e : ToolCallAccumulator) (d : ToolCallDelta) :
    (fillToolCall e d).function.arguments
      = e.function.arguments ++ (deltaArguments d).getD "" := by
  unfold fillToolCall
  simp only [apply_ite ToolCallAccumulator.function,
    apply_ite FunctionCall.arguments, ite_self]
  cases ha : deltaArguments d with
  | none => simp [ha, strTruthy, String.append_empty]
  | some s =>
    by_cases hs : s = "" <;> simp [ha, hs, strTruthy, String.append_empty]

/-- C5: tool-call fragments merge by index. The first fragment for an index
appends an entry seeded with the fragment's id, name and arguments (empty
when absent); a later fragment for an existing index applies `fillToolCall`,
which fills a still-empty id or name and appends the fragment's arguments.
The concrete two-event example folds to the single expected tool call. -/
theorem tool_call_merge_by_index
    (m : List (Nat × ToolCallAccumulator)) (d dLater : ToolCallDelta)
    (e : ToolCallAccumulator)
    (hfresh : lookupToolCall m d.index = none)
    (hexisting : lookupToolCall m dLater.index = some e) :
    mergeToolCalls m [d]
        = m ++ [(d.index,
            { id := d.id.getD ""
              function :=
                { name := (deltaName d).getD ""
                  arguments := (deltaArguments d).getD "" } })] ∧
      lookupToolCall (mergeToolCalls m [dLater]) dLater.index
        = some (fillToolCall e dLater) ∧
      (fillToolCall e dLater).id
        = (if e.id = "" then dLater.id.getD "" else e.id) ∧
      (fillToolCall e dLater).function.name
        = (if e.function.name = "" then (deltaName dLater).getD ""
           else e.function.name) ∧
      (fillToolCall e dLater).function.arguments
        = e.function.arguments ++ (deltaArguments dLater).getD "" ∧
      (collectStreamToResponse
          [⟨some (ChunkData.chunk
            { choices := some
                [{ delta :=
                    { tool_calls := some
                        [{ index := 0,
                           id := some "a",
                           function := some
                             { name := some "f",
                               arguments := some "\x7b\"x\":" } }] } }] })⟩,
           ⟨some (ChunkData.chunk
            { choices := some
                [{ delta :=
                    { tool_calls := some
                        [{ index := 0,
                           function := some
                             { arguments := some "1\x7d" } }] } }] })⟩]).map
          (fun r => r.message.tool_calls)
        = Except.ok (some
            [{ id := "a",
               function := { name := "f", arguments := "\x7b\"x\":1\x7d" } }]) := by
  refine ⟨?_, ?_, fillToolCall_id e dLater, fillToolCall_name e dLater,
    fillToolCall_arguments e dLater, by decide⟩
  · simp [mergeToolCalls, mergeOneToolCall, hfresh]
  · simp only [mergeToolCalls, List.foldl, mergeOneToolCall, hexisting]
    exact lookup_map_update m dLater.index (fun x => fillToolCall x dLater) e
      hexisting

/-- Witness for C5: a map holding index 1, a fresh fragment at index 0 and a
later fragment at index 1. -/
theorem tool_call_merge_by_index_witness :
    lookupToolCall
        [(1, { id := "e", function := { name := "g", arguments := "prior" } })]
        0 = none ∧
      lookupToolCall
        [(1, { id := "e", function := { name := "g", arguments := "prior" } })]
        1
        = some { id := "e", function := { name := "g", arguments := "prior" } } ∧
      mergeToolCalls
        [(1, { id := "e", function := { name := "g", arguments := "prior" } })]
        [{ index := 0,
           id := some "a",
           function := some { name := some "f", arguments := some "x" } }]
        = [(1, { id := "e", function := { name := "g", arguments := "prior" } }),
           (0, { id := "a", function := { name := "f", arguments := "x" } })] := by
  refine ⟨by decide, by decide, ?_⟩
  have h := (tool_call_merge_by_index
    [(1, { id := "e", function := { name := "g", arguments := "prior" } })]
    { index := 0,
      id := some "a",
      function := some { name := some "f", arguments := some "x" } }
    { index := 1, function := some { arguments := some "y" } }
    { id := "e", function := { name := "g", arguments := "prior" } }
    (by decide) (by decide)).1
  rw [h]
  decide

/-- C8 counterexample: on input `["claude-opus-4-6", "claude-opus-4.6-1m"]`
the expansion is `["claude-opus-4-6", "claude-opus-4.6-1m",
"claude-opus-4-6[1M]"]`, and no contiguous segment of it equals
`"claude-opus-4.6-1m"` followed by its two registered aliases — the alias
`"claude-opus-4-6"` was already emitted as an input id, so the id is *not*
immediately followed by its registered aliases. -/
theorem expand_alias_block_counterexample :
    ¬ ∃ l1 l2 : List String,
        expandModelIdsWithAliases ["claude-opus-4-6", "claude-opus-4.6-1m"]
          = l1 ++ expansionOf "claude-opus-4.6-1m" ++ l2 := by
  rintro ⟨l1, l2, h⟩
  rw [show expandModelIdsWithAliases ["claude-opus-4-6", "claude-opus-4.6-1m"]
        = ["claude-opus-4-6", "claude-opus-4.6-1m", "claude-opus-4-6[1M]"]
      from by decide,
    show expansionOf "claude-opus-4.6-1m"
        = ["claude-opus-4.6-1m", "claude-opus-4-6[1M]", "claude-opus-4-6"]
      from by decide] at h
  have hlen := congrArg List.length h
  simp only [List.length_append, List.length_cons, List.length_nil] at hlen
  have h1 : l1.length = 0 := by omega
  have h2 : l2.length = 0 := by omega
  rw [List.length_eq_zero] at h1 h2
  subst h1
  subst h2
  simp only [List.nil_append, List.append_nil] at h
  exact absurd h (by decide)

/-- `expandStep` keeps the seen list and the output list identical (they both
start empty and are always extended together). -/
theorem expandStep_fst_eq_snd (st : List String × List String) (v : String)
    (h : st.1 = st.2) : (expandStep st v).1 = (expandStep st v).2 := by
  unfold expandStep
  split
  · exact h
  · simp [h]

/-- The seen/output identity is preserved by the whole inner fold. -/
theorem foldl_expandStep_fst_eq_snd (l : List String)
    (st : List String × List String) (h : st.1 = st.2) :
    (l.foldl expandStep st).1 = (l.foldl expandStep st).2 := by
  induction l generalizing st with
  | nil => exact h
  | cons v rest ih => exact ih _ (expandStep_fst_eq_snd st v h)

/-- The fold only ever appends to the output list. -/
theorem foldl_expandStep_suffix (l : List String)
    (st : List String × List String) :
    ∃ ext, (l.foldl expandStep st).2 = st.2 ++ ext := by
  induction l generalizing st with
  | nil => exact ⟨[], by simp⟩
  | cons v rest ih =>
    simp only [List.foldl_cons]
    by_cases hv : v ∈ st.1
    · rw [show expandStep st v = st from by simp [expandStep, hv]]
      exact ih st
    · rw [show expandStep st v = (st.1 ++ [v], st.2 ++ [v]) from by
        simp [expandStep, hv]]
      obtain ⟨ext, hext⟩ := ih (st.1 ++ [v], st.2 ++ [v])
      refine ⟨v :: ext, ?_⟩
      rw [hext]
      simp

/-- The deduplicating fold keeps the output duplicate-free. -/
theorem foldl_expandStep_nodup (l : List String)
    (st : List String × List String) (heq : st.1 = st.2)
    (hnd : st.2.Nodup) : (l.foldl expandStep st).2.Nodup := by
  induction l generalizing st with
  | nil => exact hnd
  | cons v rest ih =>
    simp only [List.foldl_cons]
    by_cases hv : v ∈ st.1
    · rw [show expandStep st v = st from by simp [expandStep, hv]]
      exact ih st heq hnd
    · have hv2 : v ∉ st.2 := heq ▸ hv
      rw [show expandStep st v = (st.1 ++ [v], st.2 ++ [v]) from by
        simp [expandStep, hv]]
      exact ih _ (by simp [heq]) (by simp [List.nodup_append, hnd, hv2])

/-- Every element of the processed list ends up in the output. -/
theorem mem_foldl_expandStep (l : List String)
    (st : List String × List String) (heq : st.1 = st.2) (x : String)
    (hx : x ∈ l) : x ∈ (l.foldl expandStep st).2 := by
  induction l generalizing st with
  | nil => cases hx
  | cons v rest ih =>
    simp only [List.foldl_cons]
    rcases List.mem_cons.mp hx with rfl | hx'
    · obtain ⟨ext, hext⟩ := foldl_expandStep_suffix rest (expandStep st x)
      rw [hext]
      by_cases hv : x ∈ st.1
      · rw [show expandStep st x = st from by simp [expandStep, hv]]
        exact List.mem_append_left _ (heq ▸ hv)
      · rw [show expandStep st x = (st.1 ++ [x], st.2 ++ [x]) from by
          simp [expandStep, hv]]
        apply List.mem_append_left
        simp
    · exact ih (expandStep st v) (expandStep_fst_eq_snd st v heq) hx'

/-- When nothing pending is already seen (globally duplicate-free input), the
fold appends everything in order. -/
theorem foldl_expandStep_all_fresh (l : List String)
    (st : List String × List String) (heq : st.1 = st.2)
    (hnd : (st.2 ++ l).Nodup) :
    l.foldl expandStep st = (st.1 ++ l, st.2 ++ l) := by
  induction l generalizing st with
  | nil =>
    cases st
    simp
  | cons v rest ih =>
    have hv2 : v ∉ st.2 := by
      intro hmem
      rw [List.nodup_append] at hnd
      exact hnd.2.2 hmem (List.mem_cons_self v rest)
    have hv1 : v ∉ st.1 := fun hm => hv2 (heq ▸ hm)
    simp only [List.foldl_cons]
    rw [show expandStep st v = (st.1 ++ [v], st.2 ++ [v]) from by
      simp [expandStep, hv1]]
    have hnd' : ((st.2 ++ [v]) ++ rest).Nodup := by
      rw [List.append_assoc]
      simpa using hnd
    rw [ih (st.1 ++ [v], st.2 ++ [v]) (by simp [heq]) hnd']
    simp

/-- The nested double loop equals a single fold over the concatenation of the
per-id expansion blocks. -/
theorem foldl_expandModelStep_flatten (ids : List String)
    (st : List String × List String) :
    ids.foldl expandModelStep st
      = (ids.flatMap expansionOf).foldl expandStep st := by
  induction ids generalizing st with
  | nil => rfl
  | cons hd rest ih =>
    simp only [List.foldl_cons, List.flatMap_cons, List.foldl_append]
    rw [← ih]
    rfl

/-- C8 (amended): `expandModelIdsWithAliases` always returns a duplicate-free
list containing every input id; whenever the concatenation of the per-id
expansion blocks has no internal collision (no repeated input id, no input id
that is another's alias, no shared alias), the output is exactly each input
id immediately followed by its registered aliases; and the model listing for
the catalog `["claude-opus-4.6-1m"]` returns the canonical id and both
aliases, in that order. -/
theorem expand_nodup_order_and_blocks (ids : List String)
    (hfresh : (ids.flatMap expansionOf).Nodup) :
    (∀ ids2 : List String, (expandModelIdsWithAliases ids2).Nodup) ∧
      (∀ ids2 : List String, ∀ id ∈ ids2, id ∈ expandModelIdsWithAliases ids2) ∧
      expandModelIdsWithAliases ids = ids.flatMap expansionOf ∧
      listModels [{ id := "claude-opus-4.6-1m", vendor := "anthropic",
                    name := "Claude Opus" }]
        = [{ id := "claude-opus-4.6-1m", owned_by := "anthropic",
             display_name := "Claude Opus" },
           { id := "claude-opus-4-6[1M]", owned_by := "anthropic",
             display_name := "Claude Opus" },
           { id := "claude-opus-4-6", owned_by := "anthropic",
             display_name := "Claude Opus" }] := by
  refine ⟨?_, ?_, ?_, by decide⟩
  · intro ids2
    unfold expandModelIdsWithAliases
    rw [foldl_expandModelStep_flatten]
    exact foldl_expandStep_nodup _ ([], []) rfl List.nodup_nil
  · intro ids2 id hid
    unfold expandModelIdsWithAliases
    rw [foldl_expandModelStep_flatten]
    apply mem_foldl_expandStep _ ([], []) rfl
    exact List.mem_flatMap.mpr ⟨id, hid, List.mem_cons_self _ _⟩
  · unfold expandModelIdsWithAliases
    rw [foldl_expandModelStep_flatten,
      foldl_expandStep_all_fresh _ ([], []) rfl (by simpa using hfresh)]
    simp

/-- Witness for C8 at the one-element catalog input. -/
theorem expand_nodup_order_and_blocks_witness :
    (["claude-opus-4.6-1m"].flatMap expansionOf).Nodup ∧
      expandModelIdsWithAliases ["claude-opus-4.6-1m"]
        = ["claude-opus-4.6-1m"].flatMap expansionOf :=
  ⟨by decide,
   (expand_nodup_order_and_blocks ["claude-opus-4.6-1m"] (by decide)).2.2.1⟩

/-- C2 counterexample: when the fragment for index 1 arrives before the
fragment for index 0, the emitted tool_calls array lists the index-1 entry
first — the entries in ascending index order would be the reversed list, so
the output is not sorted by ascending fragment index. -/
theorem tool_calls_not_index_sorted :
    (collectStreamToResponse
        [⟨some (ChunkData.chunk
          { choices := some
              [{ delta :=
                  { tool_calls := some
                      [{ index := 1,
                         id := some "b",
                         function := some
                           { name := some "g", arguments := some "y" } }] } }] })⟩,
         ⟨some (ChunkData.chunk
          { choices := some
              [{ delta :=
                  { tool_calls := some
                      [{ index := 0,
                         id := some "a",
                         function := some
                           { name := some "f", arguments := some "x" } }] } }] })⟩]).map
        (fun r => r.message.tool_calls)
      = Except.ok (some
          [{ id := "b", function := { name := "g", arguments := "y" } },
           { id := "a", function := { name := "f", arguments := "x" } }]) ∧
      ([{ id := "b", function := { name := "g", arguments := "y" } },
        { id := "a", function := { name := "f", arguments := "x" } }] :
          List ToolCallAccumulator)
        ≠ [{ id := "a", function := { name := "f", arguments := "x" } },
           { id := "b", function := { name := "g", arguments := "y" } }] := by
  exact ⟨by decide, by decide⟩

/-- A key is absent from the map exactly when `lookup` misses. -/
theorem lookupToolCall_eq_none_iff (m : List (Nat × ToolCallAccumulator))
    (i : Nat) : lookupToolCall m i = none ↔ i ∉ m.map Prod.fst := by
  induction m with
  | nil => simp [lookupToolCall, List.lookup]
  | cons p rest ih =>
    obtain ⟨k, v⟩ := p
    by_cases hk : i = k
    · subst hk
      simp [lookupToolCall, List.lookup]
    · have hbeq : (i == k) = false := by
        simp only [beq_eq_false_iff_ne]
        exact hk
      simp only [lookupToolCall, List.lookup, hbeq, List.map_cons,
        List.mem_cons, not_or]
      constructor
      · intro hn
        exact ⟨hk, ih.mp hn⟩
      · intro hn
        exact ih.mpr hn.2

/-- In-place updates leave the key sequence unchanged. -/
theorem map_fst_update (m : List (Nat × ToolCallAccumulator)) (i : Nat)
    (f : ToolCallAccumulator → ToolCallAccumulator) :
    ((m.map fun p => if p.1 = i then (p.1, f p.2) else p).map Prod.fst)
      = m.map Prod.fst := by
  induction m with
  | nil => rfl
  | cons p rest ih =>
    simp only [List.map_cons, ih]
    congr 1
    by_cases hp : p.1 = i <;> simp [hp]

/-- One merged fragment extends the key sequence by its index only when that
index is new, keeping first-seen order. -/
theorem mergeOneToolCall_keys (m : List (Nat × ToolCallAccumulator))
    (d : ToolCallDelta) :
    (mergeOneToolCall m d).map Prod.fst
      = insertIndex (m.map Prod.fst) d.index := by
  cases hl : lookupToolCall m d.index with
  | none =>
    have hnot : d.index ∉ m.map Prod.fst :=
      (lookupToolCall_eq_none_iff m d.index).mp hl
    simp [mergeOneToolCall, hl, insertIndex, hnot]
  | some e =>
    have hmem : d.index ∈ m.map Prod.fst := by
      by_contra hc
      rw [← lookupToolCall_eq_none_iff] at hc
      rw [hc] at hl
      cases hl
    simp only [mergeOneToolCall, hl, insertIndex, if_pos hmem]
    exact map_fst_update m d.index (fun x => fillToolCall x d)

/-- The key sequence of a whole merge is the first-seen fold of the fragment
indices. -/
theorem mergeToolCalls_keys (deltas : List ToolCallDelta)
    (m : List (Nat × ToolCallAccumulator)) :
    (mergeToolCalls m deltas).map Prod.fst
      = firstSeenIndices (m.map Prod.fst) (deltas.map ToolCallDelta.index) := by
  induction deltas generalizing m with
  | nil => rfl
  | cons d rest ih =>
    show (mergeToolCalls (mergeOneToolCall m d) rest).map Prod.fst = _
    rw [ih, mergeOneToolCall_keys]
    rfl

/-- A successful fold step extends the key sequence by the chunk's fragment
indices in first-seen order. -/
theorem applyChunk_toolCalls_keys (parsed : ParsedChunk)
    (acc acc' : StreamAccumulator)
    (h : applyChunkToAccumulator parsed acc = Except.ok acc') :
    acc'.toolCalls.map Prod.fst
      = firstSeenIndices (acc.toolCalls.map Prod.fst)
          (chunkFragmentIndices parsed) := by
  obtain ⟨pid, pmodel, pcreated, pfp, pusage, pchoices⟩ := parsed
  cases pchoices with
  | none => simp [applyChunkToAccumulator] at h
  | some choices =>
    cases choices with
    | nil =>
      simp only [applyChunkToAccumulator, List.head?, Except.ok.injEq] at h
      subst h
      rfl
    | cons choice cs =>
      obtain ⟨⟨ct, tc⟩, fr⟩ := choice
      cases tc with
      | none =>
        cases fr <;> cases ct <;>
          · simp only [applyChunkToAccumulator, List.head?, Except.ok.injEq] at h
            subst h
            rfl
      | some ds =>
        cases fr <;> cases ct <;>
          · simp only [applyChunkToAccumulator, List.head?, Except.ok.injEq] at h
            subst h
            exact mergeToolCalls_keys ds _

/-- Over a whole event list, the key sequence is the first-seen fold of all
fragment indices the list presents. -/
theorem collectEvents_toolCalls_keys (es : List SSEMessage)
    (acc acc' : StreamAccumulator)
    (h : collectEvents es acc = Except.ok acc') :
    acc'.toolCalls.map Prod.fst
      = firstSeenIndices (acc.toolCalls.map Prod.fst) (fragmentIndices es) := by
  induction es generalizing acc with
  | nil =>
    simp only [collectEvents, Except.ok.injEq] at h
    subst h
    rfl
  | cons m rest ih =>
    cases hm : m.data with
    | none =>
      rw [show collectEvents (m :: rest) acc = collectEvents rest acc from by
        simp [collectEvents, hm]] at h
      rw [show fragmentIndices (m :: rest) = fragmentIndices rest from by
        simp [fragmentIndices, hm]]
      exact ih acc h
    | some d =>
      cases d with
      | done =>
        rw [show collectEvents (m :: rest) acc = Except.ok acc from by
          simp [collectEvents, hm]] at h
        injection h with h
        subst h
        rw [show fragmentIndices (m :: rest) = [] from by
          simp [fragmentIndices, hm]]
        rfl
      | malformed raw =>
        rw [show collectEvents (m :: rest) acc = collectEvents rest acc from by
          simp [collectEvents, hm, parseChunkDataOrLog]] at h
        rw [show fragmentIndices (m :: rest) = fragmentIndices rest from by
          simp [fragmentIndices, hm, parseChunkDataOrLog]]
        exact ih acc h
      | chunk parsed =>
        cases ha : applyChunkToAccumulator parsed acc with
        | error e =>
          rw [show collectEvents (m :: rest) acc = Except.error e from by
            simp [collectEvents, hm, parseChunkDataOrLog, ha]] at h
          cases h
        | ok acc2 =>
          rw [show collectEvents (m :: rest) acc = collectEvents rest acc2 from by
            simp [collectEvents, hm, parseChunkDataOrLog, ha]] at h
          rw [show fragmentIndices (m :: rest)
              = chunkFragmentIndices parsed ++ fragmentIndices rest from by
            simp [fragmentIndices, hm, parseChunkDataOrLog]]
          rw [show firstSeenIndices (acc.toolCalls.map Prod.fst)
                (chunkFragmentIndices parsed ++ fragmentIndices rest)
              = firstSeenIndices
                  (firstSeenIndices (acc.toolCalls.map Prod.fst)
                    (chunkFragmentIndices parsed))
                  (fragmentIndices rest) from List.foldl_append _ _ _ _]
          rw [← applyChunk_toolCalls_keys parsed acc acc2 ha]
          exact ih acc2 h

/-- C2 (amended): the emitted tool_calls list the merged entries in
first-seen order of their fragment indices — the JS `Map`'s insertion order —
which equals ascending index order only when lower indices appear first; the
response carries the entries exactly in the key order of the accumulated
map and omits them when no fragment was observed. -/
theorem tool_calls_in_first_seen_index_order (es : List SSEMessage)
    (acc' : StreamAccumulator)
    (h : collectEvents es createAccumulator = Except.ok acc') :
    acc'.toolCalls.map Prod.fst = firstSeenIndices [] (fragmentIndices es) ∧
      (buildResponse acc').message.tool_calls
        = (if acc'.toolCalls.isEmpty then none
           else some (acc'.toolCalls.map Prod.snd)) := by
  constructor
  · exact collectEvents_toolCalls_keys es createAccumulator acc' h
  · cases hval : acc'.toolCalls with
    | nil => simp [buildResponse, hval]
    | cons p ps => simp [buildResponse, hval]

/-- Witness for C2 at the out-of-order two-event stream: the key order is
[1, 0], not ascending. -/
theorem tool_calls_in_first_seen_index_order_witness :
    collectEvents
        [⟨some (ChunkData.chunk
          { choices := some
              [{ delta :=
                  { tool_calls := some
                      [{ index := 1,
                         id := some "b",
                         function := some
                           { name := some "g", arguments := some "y" } }] } }] })⟩,
         ⟨some (ChunkData.chunk
          { choices := some
              [{ delta :=
                  { tool_calls := some
                      [{ index := 0,
                         id := some "a",
                         function := some
                           { name := some "f", arguments := some "x" } }] } }] })⟩]
        createAccumulator
      = Except.ok
        { id := "", model := "", created := 0, systemFingerprint := none,
          finishReason := FinishReason.stop, content := "",
          toolCalls :=
            [(1, { id := "b", function := { name := "g", arguments := "y" } }),
             (0, { id := "a", function := { name := "f", arguments := "x" } })],
          usage := none } ∧
      ({ id := "", model := "", created := 0, systemFingerprint := none,
         finishReason := FinishReason.stop, content := "",
         toolCalls :=
           [(1, { id := "b", function := { name := "g", arguments := "y" } }),
            (0, { id := "a", function := { name := "f", arguments := "x" } })],
         usage := none } : StreamAccumulator).toolCalls.map Prod.fst
        = firstSeenIndices []
            (fragmentIndices
              [⟨some (ChunkData.chunk
                { choices := some
                    [{ delta :=
                        { tool_calls := some
                            [{ index := 1,
                               id := some "b",
                               function := some
                                 { name := some "g",
                                   arguments := some "y" } }] } }] })⟩,
               ⟨some (ChunkData.chunk
                { choices := some
                    [{ delta :=
                        { tool_calls := some
                            [{ index := 0,
                               id := some "a",
                               function := some
                                 { name := some "f",
                                   arguments := some "x" } }] } }] })⟩]) := by
  refine ⟨by decide, ?_⟩
  exact (tool_calls_in_first_seen_index_order _ _ (by decide)).1

/-- C3 counterexample: splitting an event that carries a text delta *and* a
tool-call fragment with a non-empty arguments string changes the fold — the
two split events each append the fragment's arguments, so the merged
arguments become "qq" instead of "q". The two split events have delta
contents "a" and "b" concatenating to the original "ab" and all other fields
equal to the original event's. -/
theorem split_with_tool_fragment_differs :
    collectStreamToResponse
        [⟨some (ChunkData.chunk
          { choices := some
              [{ delta :=
                  { content := some "a",
                    tool_calls := some
                      [{ index := 0,
                         id := some "t",
                         function := some { arguments := some "q" } }] } }] })⟩,
         ⟨some (ChunkData.chunk
          { choices := some
              [{ delta :=
                  { content := some "b",
                    tool_calls := some
                      [{ index := 0,
                         id := some "t",
                         function := some { arguments := some "q" } }] } }] })⟩]
      ≠ collectStreamToResponse
        [⟨some (ChunkData.chunk
          { choices := some
              [{ delta :=
                  { content := some "ab",
                    tool_calls := some
                      [{ index := 0,
                         id := some "t",
                         function := some { arguments := some "q" } }] } }] })⟩] := by
  decide

/-- The string latch is idempotent for a fixed incoming field. -/
theorem latchString_idem (cur : String) (inc : Option String) :
    latchString (latchString cur inc) inc = latchString cur inc := by
  unfold latchString
  cases inc with
  | none => simp [strTruthy]
  | some s =>
    by_cases hc : cur = ""
    · by_cases hs : s = "" <;> simp [strTruthy, hc, hs]
    · simp [strTruthy, hc]

/-- The `created` latch is idempotent for a fixed incoming field. -/
theorem latchCreated_idem (cur : Nat) (inc : Option Nat) :
    latchCreated (latchCreated cur inc) inc = latchCreated cur inc := by
  unfold latchCreated
  cases inc with
  | none => simp [natTruthy]
  | some n =>
    by_cases hc : cur = 0
    · by_cases hn : n = 0 <;> simp [natTruthy, hc, hn]
    · simp [natTruthy, hc]

/-- The fingerprint latch is idempotent for a fixed incoming field. -/
theorem latchFingerprint_idem (cur inc : Option String) :
    latchFingerprint (latchFingerprint cur inc) inc
      = latchFingerprint cur inc := by
  unfold latchFingerprint
  cases inc with
  | none => simp [strTruthy]
  | some s =>
    cases cur with
    | none => by_cases hs : s = "" <;> simp [strTruthy, optStrFalsy, hs]
    | some c =>
      by_cases hc : c = "" <;> by_cases hs : s = "" <;>
        simp [strTruthy, optStrFalsy, hc, hs]

/-- Folding the two split text events equals folding the single full-text
event, from every accumulator state. -/
theorem collect_textEvent_split (ck : ParsedChunk) (fr : Option FinishReason)
    (rest : List Choice) (s1 s2 : String) (post : List SSEMessage) :
    ∀ acc : StreamAccumulator,
      collectEvents
          (mkTextEvent ck fr rest s1 :: mkTextEvent ck fr rest s2 :: post) acc
        = collectEvents (mkTextEvent ck fr rest (s1 ++ s2) :: post) acc := by
  intro acc
  cases fr with
  | none =>
    show collectEvents post _ = collectEvents post _
    congr 1
    simp only [StreamAccumulator.mk.injEq]
    and_intros <;>
      first
        | exact latchString_idem _ _
        | exact latchCreated_idem _ _
        | exact latchFingerprint_idem _ _
        | exact String.append_assoc _ _ _
        | trivial
        | (cases hu : ck.usage.isSome <;> simp [hu])
  | some f =>
    show collectEvents post _ = collectEvents post _
    congr 1
    simp only [StreamAccumulator.mk.injEq]
    and_intros <;>
      first
        | exact latchString_idem _ _
        | exact latchCreated_idem _ _
        | exact latchFingerprint_idem _ _
        | exact String.append_assoc _ _ _
        | trivial
        | (cases hu : ck.usage.isSome <;> simp [hu])

/-- C3 (amended): the fold is a pure deterministic function of the event
sequence, and splitting one event whose delta carries a text delta and no
tool-call fragments into two consecutive events whose contents concatenate to
the same cumulative text (all other fields equal) folds to the same final
response; carrying tool-call fragments through the split is excluded, since
their arguments would be appended twice. -/
theorem fold_deterministic_and_split_text_same (pre post : List SSEMessage)
    (ck : ParsedChunk) (fr : Option FinishReason) (rest : List Choice)
    (s1 s2 : String) :
    (∀ es1 es2 : List SSEMessage, es1 = es2 →
        collectStreamToResponse es1 = collectStreamToResponse es2) ∧
      collectStreamToResponse
          (pre ++ mkTextEvent ck fr rest s1 :: mkTextEvent ck fr rest s2 :: post)
        = collectStreamToResponse
            (pre ++ mkTextEvent ck fr rest (s1 ++ s2) :: post) := by
  constructor
  · intro es1 es2 he
    rw [he]
  · unfold collectStreamToResponse
    rw [collectEvents_append_congr _ _
      (collect_textEvent_split ck fr rest s1 s2 post) pre createAccumulator]

end CopilotApi
